import Mathlib

/-!
Shallow embedding of the conversion worker of `src/image_to_webp_gui.py`
(`ConvertThread.run` / `ConvertThread.stop`) together with the path helpers
from the Python standard library that the worker calls
(`os.path.basename`, `os.path.dirname`, `os.path.splitext`, `os.path.join`,
`os.makedirs`).  External effects of the imaging library and of the file
system (decoding, encoding, size queries, removal) are modelled by an
environment of oracles; the worker itself is embedded as a pure function
producing the list of file-system actions it performs and the list of
Qt signal events it emits, in program order.  Machine floats of the Python
progress computation are modelled by exact integer arithmetic (Python's
`int()` on a non-negative float is a floor, matching `Nat` division here),
and the reduction percentage by exact rational arithmetic.
-/

namespace ImageToWebp

/-- Characters of the path after the last `/` separator, as in
`posixpath.basename`. -/
def pyBasename (p : String) : String :=
  ⟨(p.data.reverse.takeWhile (fun c => c ≠ '/')).reverse⟩

/-- The directory part of a path, as in `posixpath.dirname`: everything up to
and including the last `/`, with trailing slashes stripped unless the head is
all slashes; empty when the path has no separator. -/
def pyDirname (p : String) : String :=
  let head := (p.data.reverse.dropWhile (fun c => c ≠ '/')).reverse
  if head ≠ [] ∧ head.any (fun c => c ≠ '/') then
    ⟨(head.reverse.dropWhile (fun c => c = '/')).reverse⟩
  else
    ⟨head⟩

/-- The root of `os.path.splitext` applied to a base name (the worker only
calls it on `os.path.basename file_path`, so no separator handling is
needed): the part before the last dot, except that a name whose characters
before its last dot are all dots (such as `.bashrc` or `...`) has no
extension and is returned whole. -/
def splitextRoot (b : String) : String :=
  let cs := b.data
  let ext := cs.reverse.takeWhile (fun c => c ≠ '.')
  if ext.length = cs.length then b
  else
    let root := (cs.reverse.drop (ext.length + 1)).reverse
    if root.all (fun c => c = '.') then b else ⟨root⟩

/-- Joining of one further component, as in `posixpath.join a b`. -/
def pyJoin (a b : String) : String :=
  if b.data.head? = some '/' then b
  else if a.data = [] ∨ a.data.getLast? = some '/' then a ++ b
  else a ++ "/" ++ b

/-- The settings snapshot handed to `ConvertThread.__init__`: the ordered
file list and the conversion options.  `output_folder` is `none` when the
user picked no folder (Python `None`; the GUI only ever stores a non-empty
folder string, so Python truthiness coincides with `Option`). -/
structure Job where
  files : List String
  output_folder : Option String
  keep_original : Bool
  quality : Nat
  lossless : Bool

/-- The output directory chosen for a source file:
`self.output_folder if self.output_folder else os.path.dirname(file_path)`. -/
def outDirOf (job : Job) (p : String) : String :=
  match job.output_folder with
  | some d => d
  | none => pyDirname p

/-- The output path of a source file:
`os.path.join(output_dir, f"{base_name}.webp")` with
`base_name = os.path.splitext(os.path.basename(file_path))[0]`. -/
def outputPath (job : Job) (p : String) : String :=
  pyJoin (outDirOf job p) (splitextRoot (pyBasename p) ++ ".webp")

/-- PIL image modes: the check `img.mode in ('RGBA', 'LA', 'P')` of the
worker, followed by `img.convert('RGBA')` or `img.convert('RGB')`. -/
def normalizeMode (m : String) : String :=
  if m = "RGBA" ∨ m = "LA" ∨ m = "P" then "RGBA" else "RGB"

/-- Modelled from the Pillow documentation (external library, not part of
this repository): the image modes `PIL.Image.open` can produce for the
formats this tool accepts, per the handbook's per-format mode lists —
JPEG: L, RGB, CMYK; PNG: 1, L, LA, I, P, RGB, RGBA; BMP: 1, L, P, RGB,
RGBA; GIF: L, P; TIFF additionally I, I;16, F, YCbCr and LAB (CIELab
photometric).  The remaining Pillow modes (PA, RGBa, La, RGBX, HSV) are
only created by explicit `convert`/constructor calls, never by these
decoders. -/
def decodeModes : List String :=
  ["1", "L", "I", "I;16", "F", "P", "RGB", "RGBA", "LA", "CMYK", "YCbCr",
   "LAB"]

/-- Modelled from the Pillow documentation: the modes that carry an alpha
channel are exactly RGBA, LA, PA and the premultiplied variants RGBa and
La.  In particular LAB does not: its `a` is the CIELab a* chroma band, not
alpha. -/
def modeHasAlpha (m : String) : Bool :=
  m = "RGBA" || m = "LA" || m = "PA" || m = "RGBa" || m = "La"

/-- Modelled from the Pillow documentation: the palette-indexed modes are
exactly P and PA. -/
def modeIsPalette (m : String) : Bool :=
  m = "P" || m = "PA"

/-- Modelled from the Pillow documentation: number of channels (bands) of a
mode, for the modes this development mentions (LAB and YCbCr have three
bands; palette modes have one index band). -/
def channelCount (m : String) : Nat :=
  if m = "RGBA" ∨ m = "CMYK" ∨ m = "RGBa" then 4
  else if m = "RGB" ∨ m = "YCbCr" ∨ m = "LAB" ∨ m = "HSV" then 3
  else if m = "LA" ∨ m = "PA" ∨ m = "La" then 2
  else 1

/-- Oracles for the external effects the worker performs on one file.
`decode p` is `PIL.Image.open(p)`: `none` when it raises, otherwise the
decoded image's mode.  `saveSize out` is `img.save(out, 'WEBP', ...)`
followed by `os.path.getsize(out)`: `none` when saving raises, otherwise the
byte size of the encoded file.  `origSize p` is `os.path.getsize(p)`:
`none` when it raises.  `removeOk p` tells whether `os.remove(p)`
succeeds. -/
structure Env where
  decode : String → Option String
  saveSize : String → Option Nat
  origSize : String → Option Nat
  removeOk : String → Bool

/-- File-system actions the worker performs, in program order. -/
inductive Action where
  | openImg : String → Action
  | convert : String → Action
  | makedirs : String → Action
  | save : String → Nat → Action
  | getsize : String → Action
  | remove : String → Action
deriving DecidableEq, Repr

/-- Qt signal emissions of the worker (`progress`, `file_converted`,
`error`, `finished`). -/
inductive Event where
  | progress : Nat → Event
  | fileConverted : String → String → Nat → Nat → ℚ → Event
  | error : String → Event
  | finished : Event
deriving DecidableEq, Repr

/-- The error message built in the `except` branch:
`f"转换失败 {file_path}: {str(e)}"`; `r` stands for `str(e)`, whose exact
text is owned by the raising library. -/
def mkErrMsg (p r : String) : String :=
  "转换失败 " ++ p ++ ": " ++ r

/-- The size-reduction percentage `(1 - new_size / original_size) * 100`,
in exact rational arithmetic. -/
def reduction (osz nsz : Nat) : ℚ :=
  (1 - (nsz : ℚ) / (osz : ℚ)) * 100

/-- One iteration of the `for` loop body of `ConvertThread.run`, the whole
`try`/`except`: the list of file-system actions performed and the single
event emitted for this file (one `file_converted` or one `error`).  Failure
of an oracle raises at that point, skipping the rest of the `try` body and
landing in the `except` branch.  A zero original size makes
`new_size / original_size` raise `ZeroDivisionError` before the deletion
step is reached. -/
def processFile (env : Env) (job : Job) (p : String) : List Action × Event :=
  match env.decode p with
  | none => ([.openImg p], .error (mkErrMsg p "cannot identify image file"))
  | some m =>
    let out := outputPath job p
    let acts0 : List Action :=
      [.openImg p, .convert (normalizeMode m), .makedirs (outDirOf job p)]
    match env.saveSize out with
    | none => (acts0, .error (mkErrMsg p "save failed"))
    | some nsz =>
      match env.origSize p with
      | none =>
          (acts0 ++ [.save out nsz, .getsize p],
           .error (mkErrMsg p "getsize failed"))
      | some osz =>
        let acts1 := acts0 ++ [.save out nsz, .getsize p, .getsize out]
        if osz = 0 then
          (acts1, .error (mkErrMsg p "division by zero"))
        else if job.keep_original then
          (acts1, .fileConverted p out osz nsz (reduction osz nsz))
        else if env.removeOk p then
          (acts1 ++ [.remove p],
           .fileConverted p out osz nsz (reduction osz nsz))
        else
          (acts1, .error (mkErrMsg p "remove failed"))

/-- The event stream of the `for index, file_path in enumerate(self.files)`
loop: `cancel i` is the value of `not self.is_running` observed at the top
of iteration `i` (the flag is only ever set by `stop()`); on observing it
the loop breaks.  After each processed file the worker emits
`int((index + 1) / total_files * 100)`, which on non-negative values is the
floor, i.e. `Nat` division here. -/
def runLoop (env : Env) (job : Job) (cancel : Nat → Bool) (total : Nat) :
    Nat → List String → List Event
  | _, [] => []
  | i, p :: ps =>
    if cancel i then []
    else
      (processFile env job p).2 :: .progress ((i + 1) * 100 / total) ::
        runLoop env job cancel total (i + 1) ps

/-- The full event stream of `ConvertThread.run`: the loop, then the single
`self.finished.emit()`. -/
def runEvents (env : Env) (job : Job) (cancel : Nat → Bool) : List Event :=
  runLoop env job cancel job.files.length 0 job.files ++ [.finished]

/-- Classifier for per-file events (`file_converted` or `error`). -/
def isFileEvent : Event → Bool
  | .fileConverted _ _ _ _ _ => true
  | .error _ => true
  | _ => false

/-- The values carried by the `progress` events of a stream, in order. -/
def progressValues (l : List Event) : List Nat :=
  l.filterMap (fun e => match e with | .progress n => some n | _ => none)

/-- The model of `os.makedirs(d, exist_ok=True)` over a set of existing
directories: create the directory when absent, do nothing when present. -/
def makedirsFs (d : String) (fs : List String) : List String :=
  if d ∈ fs then fs else d :: fs

/-- The `progress` payload of an event, if any. -/
def progressOf : Event → Option Nat
  | .progress n => some n
  | _ => none

theorem progressValues_eq_filterMap (l : List Event) :
    progressValues l = l.filterMap progressOf := by
  unfold progressValues progressOf
  rfl

@[simp] theorem isFileEvent_progress (n : Nat) :
    isFileEvent (Event.progress n) = false := rfl

@[simp] theorem isFileEvent_finished : isFileEvent Event.finished = false := rfl

@[simp] theorem isFileEvent_error (m : String) :
    isFileEvent (Event.error m) = true := rfl

@[simp] theorem progressOf_progress (n : Nat) :
    progressOf (Event.progress n) = some n := rfl

/-- Every loop iteration emits exactly one per-file event: the `try` body
ends in `file_converted.emit` and the `except` branch in `error.emit`. -/
theorem processFile_isFileEvent (env : Env) (job : Job) (p : String) :
    isFileEvent (processFile env job p).2 = true := by
  simp only [processFile]
  cases env.decode p with
  | none => rfl
  | some m =>
    cases env.saveSize (outputPath job p) with
    | none => rfl
    | some nsz =>
      cases env.origSize p with
      | none => rfl
      | some osz =>
        by_cases h0 : osz = 0 <;> by_cases hk : job.keep_original = true <;>
          by_cases hr : env.removeOk p = true <;>
            simp [h0, hk, hr, isFileEvent]

theorem isFileEvent_ne_finished {e : Event} (h : isFileEvent e = true) :
    e ≠ Event.finished := by
  cases e <;> simp_all [isFileEvent]

theorem isFileEvent_progressOf_none {e : Event} (h : isFileEvent e = true) :
    progressOf e = none := by
  cases e <;> simp_all [isFileEvent, progressOf]

theorem processFile_progressOf_none (env : Env) (job : Job) (p : String) :
    progressOf (processFile env job p).2 = none :=
  isFileEvent_progressOf_none (processFile_isFileEvent env job p)

/-- Without cancellation, the loop yields one per-file event per source
path, in the order of the job's file list. -/
theorem runLoop_filter_noCancel (env : Env) (job : Job) (cancel : Nat → Bool)
    (total : Nat) (h : ∀ j, cancel j = false) :
    ∀ (ps : List String) (i : Nat),
      (runLoop env job cancel total i ps).filter isFileEvent
        = ps.map (fun p => (processFile env job p).2) := by
  intro ps
  induction ps with
  | nil => intro i; simp [runLoop]
  | cons p ps ih =>
    intro i
    simp [runLoop, h i, List.filter_cons, processFile_isFileEvent, ih (i + 1)]

/-- The loop never emits `finished`; only the epilogue does. -/
theorem runLoop_no_finished (env : Env) (job : Job) (cancel : Nat → Bool)
    (total : Nat) :
    ∀ (ps : List String) (i : Nat), ∀ e ∈ runLoop env job cancel total i ps,
      e ≠ Event.finished := by
  intro ps
  induction ps with
  | nil => intro i e he; simp [runLoop] at he
  | cons p ps ih =>
    intro i e he
    simp only [runLoop] at he
    split at he
    · simp at he
    · rcases List.mem_cons.mp he with rfl | he'
      · exact isFileEvent_ne_finished (processFile_isFileEvent env job p)
      · rcases List.mem_cons.mp he' with rfl | he''
        · intro hc; cases hc
        · exact ih (i + 1) e he''

/-- With the cancellation flag observed from iteration `k` on, the loop
processes exactly the first `k - i` of the remaining files. -/
theorem runLoop_filter_cancelAt (env : Env) (job : Job) (total k : Nat) :
    ∀ (ps : List String) (i : Nat), i ≤ k →
      (runLoop env job (fun j => decide (k ≤ j)) total i ps).filter isFileEvent
        = (ps.take (k - i)).map (fun p => (processFile env job p).2) := by
  intro ps
  induction ps with
  | nil => intro i _; simp [runLoop]
  | cons p ps ih =>
    intro i hik
    by_cases hki : k ≤ i
    · have hik' : i = k := le_antisymm hik hki
      subst hik'
      simp [runLoop]
    · have hc : decide (k ≤ i) = false := by simp [hki]
      have htake : k - i = (k - (i + 1)) + 1 := by omega
      simp only [runLoop, hc, Bool.false_eq_true, if_false, htake,
        List.take_succ_cons, List.map_cons, List.filter_cons,
        processFile_isFileEvent, isFileEvent_progress]
      simp [ih (i + 1) (by omega)]

/-- Without cancellation, the loop's progress emissions are
`(i + 1) * 100 / total` for successive iteration indices `i`. -/
theorem runLoop_progress_noCancel (env : Env) (job : Job)
    (cancel : Nat → Bool) (total : Nat) (h : ∀ j, cancel j = false) :
    ∀ (ps : List String) (i : Nat),
      progressValues (runLoop env job cancel total i ps)
        = (List.range ps.length).map (fun j => (i + j + 1) * 100 / total) := by
  intro ps
  induction ps with
  | nil => intro i; simp [runLoop, progressValues]
  | cons p ps ih =>
    intro i
    simp only [progressValues_eq_filterMap] at ih ⊢
    simp only [runLoop, h i, Bool.false_eq_true, if_false,
      List.filterMap_cons, processFile_progressOf_none, progressOf_progress]
    rw [ih (i + 1)]
    have hfun : (fun j => (i + (j + 1) + 1) * 100 / total)
        = (fun j => (i + 1 + j + 1) * 100 / total) := by
      funext j
      have harith : i + (j + 1) + 1 = i + 1 + j + 1 := by omega
      rw [harith]
    simp only [List.length_cons, List.range_succ_eq_map, List.map_cons,
      List.map_map, Function.comp_def, Nat.succ_eq_add_one, hfun, Nat.add_zero]

/-- Characterization of the only branch of the loop body that removes the
source file: decoding, saving and the size query all succeeded, the original
size was non-zero, keep-original was off and `os.remove` did not raise; the
full action list of that branch is explicit and in program order. -/
theorem processFile_remove_mem (env : Env) (job : Job) (p : String)
    (h : Action.remove p ∈ (processFile env job p).1) :
    ∃ m nsz osz, env.decode p = some m
      ∧ env.saveSize (outputPath job p) = some nsz
      ∧ env.origSize p = some osz ∧ osz ≠ 0
      ∧ job.keep_original = false ∧ env.removeOk p = true
      ∧ (processFile env job p).1
          = [Action.openImg p, Action.convert (normalizeMode m),
             Action.makedirs (outDirOf job p),
             Action.save (outputPath job p) nsz, Action.getsize p,
             Action.getsize (outputPath job p), Action.remove p] := by
  simp only [processFile] at h ⊢
  cases hd : env.decode p with
  | none => rw [hd] at h; simp at h
  | some m =>
    rw [hd] at h
    cases hs : env.saveSize (outputPath job p) with
    | none => rw [hs] at h; simp at h
    | some nsz =>
      rw [hs] at h
      cases ho : env.origSize p with
      | none => rw [ho] at h; simp at h
      | some osz =>
        rw [ho] at h
        by_cases h0 : osz = 0
        · simp [h0] at h
        · cases hk : job.keep_original with
          | true => rw [hk] at h; simp [h0] at h
          | false =>
            rw [hk] at h
            cases hr : env.removeOk p with
            | false => rw [hr] at h; simp [h0] at h
            | true =>
              refine ⟨m, nsz, osz, rfl, rfl, rfl, h0, rfl, rfl, ?_⟩
              simp [h0]

theorem processFile_save_none_no_remove (env : Env) (job : Job) (p : String)
    (hs : env.saveSize (outputPath job p) = none) :
    Action.remove p ∉ (processFile env job p).1 := by
  intro h
  rcases processFile_remove_mem env job p h with ⟨m, nsz, osz, _, hs', _⟩
  rw [hs] at hs'
  cases hs'

theorem processFile_keep_no_remove (env : Env) (job : Job) (p : String)
    (hk : job.keep_original = true) :
    Action.remove p ∉ (processFile env job p).1 := by
  intro h
  rcases processFile_remove_mem env job p h with ⟨m, nsz, osz, _, _, _, _, hk', _⟩
  rw [hk] at hk'
  cases hk'

/-- The only `save` the loop body ever performs targets the computed output
path, with the byte size the save oracle reports for it. -/
theorem processFile_save_mem (env : Env) (job : Job) (p q : String) (n : Nat)
    (h : Action.save q n ∈ (processFile env job p).1) :
    q = outputPath job p ∧ env.saveSize (outputPath job p) = some n := by
  simp only [processFile] at h
  cases hd : env.decode p with
  | none => rw [hd] at h; simp at h
  | some m =>
    rw [hd] at h
    cases hs : env.saveSize (outputPath job p) with
    | none => rw [hs] at h; simp at h
    | some nsz =>
      rw [hs] at h
      cases ho : env.origSize p with
      | none =>
        rw [ho] at h
        simp at h
        exact ⟨h.1, by rw [h.2]⟩
      | some osz =>
        rw [ho] at h
        by_cases h0 : osz = 0
        · simp [h0] at h
          exact ⟨h.1, by rw [h.2]⟩
        · cases hk : job.keep_original with
          | true =>
            rw [hk] at h
            simp [h0] at h
            exact ⟨h.1, by rw [h.2]⟩
          | false =>
            rw [hk] at h
            cases hr : env.removeOk p with
            | false =>
              rw [hr] at h
              simp [h0] at h
              exact ⟨h.1, by rw [h.2]⟩
            | true =>
              rw [hr] at h
              simp [h0] at h
              exact ⟨h.1, by rw [h.2]⟩

/-- When decoding and saving succeed, the loop body performs the save of
the output file, preceded by the color-mode conversion. -/
theorem processFile_success_save (env : Env) (job : Job) (p m : String)
    (nsz : Nat) (hd : env.decode p = some m)
    (hs : env.saveSize (outputPath job p) = some nsz) :
    ∃ l₂, (processFile env job p).1
        = [Action.openImg p, Action.convert (normalizeMode m),
           Action.makedirs (outDirOf job p)]
          ++ Action.save (outputPath job p) nsz :: l₂ := by
  simp only [processFile, hd, hs]
  cases ho : env.origSize p with
  | none => exact ⟨[Action.getsize p], by simp⟩
  | some osz =>
    by_cases h0 : osz = 0
    · exact ⟨[Action.getsize p, Action.getsize (outputPath job p)], by simp [h0]⟩
    · cases hk : job.keep_original with
      | true =>
        exact ⟨[Action.getsize p, Action.getsize (outputPath job p)],
          by simp [h0]⟩
      | false =>
        cases hr : env.removeOk p with
        | false =>
          exact ⟨[Action.getsize p, Action.getsize (outputPath job p)],
            by simp [h0]⟩
        | true =>
          exact ⟨[Action.getsize p, Action.getsize (outputPath job p),
                  Action.remove p], by simp [h0]⟩

/-- Every `error` event of the loop body carries the message template
`f"转换失败 {file_path}: ..."`, so it names the failing file's path. -/
theorem processFile_error_msg (env : Env) (job : Job) (p msg : String)
    (h : (processFile env job p).2 = Event.error msg) :
    ∃ r, msg = mkErrMsg p r := by
  simp only [processFile] at h
  cases hd : env.decode p with
  | none => rw [hd] at h; exact ⟨_, (Event.error.inj h).symm⟩
  | some m =>
    rw [hd] at h
    cases hs : env.saveSize (outputPath job p) with
    | none => rw [hs] at h; exact ⟨_, (Event.error.inj h).symm⟩
    | some nsz =>
      rw [hs] at h
      cases ho : env.origSize p with
      | none => rw [ho] at h; exact ⟨_, (Event.error.inj h).symm⟩
      | some osz =>
        rw [ho] at h
        by_cases h0 : osz = 0
        · simp only [if_pos h0] at h
          exact ⟨_, (Event.error.inj h).symm⟩
        · simp only [if_neg h0] at h
          cases hk : job.keep_original with
          | true => rw [hk] at h; simp at h
          | false =>
            rw [hk] at h
            cases hr : env.removeOk p with
            | false =>
              rw [hr] at h
              simp only [Bool.false_eq_true, if_false] at h
              exact ⟨_, (Event.error.inj h).symm⟩
            | true => rw [hr] at h; simp at h

/-- Joining a component never changes that component's trailing
characters. -/
theorem pyJoin_ends (a b : String) : ∃ t, pyJoin a b = t ++ b := by
  unfold pyJoin
  split
  · exact ⟨"", by simp⟩
  · split
    · exact ⟨a, rfl⟩
    · exact ⟨a ++ "/", (String.append_assoc a "/" b).symm ▸ rfl⟩

/-- The output file name always carries the `.webp` extension. -/
theorem outputPath_ends_webp (job : Job) (p : String) :
    ∃ t, outputPath job p = t ++ ".webp" := by
  rcases pyJoin_ends (outDirOf job p) (splitextRoot (pyBasename p) ++ ".webp")
    with ⟨t, ht⟩
  exact ⟨t ++ splitextRoot (pyBasename p), by
    rw [outputPath, ht, String.append_assoc]⟩

theorem makedirsFs_idem (d : String) (fs : List String) :
    makedirsFs d (makedirsFs d fs) = makedirsFs d fs := by
  by_cases h : d ∈ fs <;> simp [makedirsFs, h]

/-- Sample environment: every file decodes to an RGB image, every save
writes 50 bytes, every source is 100 bytes, removal succeeds. -/
def envW : Env :=
  ⟨fun _ => some "RGB", fun _ => some 50, fun _ => some 100, fun _ => true⟩

/-- Sample job: three files, no output folder, keep originals. -/
def jobW : Job := ⟨["/d/a.png", "/d/b.png", "/d/c.png"], none, true, 90, false⟩

/-- Sample job: one file, explicit output folder, delete originals. -/
def jobDel : Job := ⟨["/d/a.png"], some "/out", false, 80, true⟩

/-- Sample environment where every decode raises. -/
def envErr : Env := ⟨fun _ => none, fun _ => none, fun _ => none, fun _ => false⟩

/-- Sample job with an empty file list. -/
def jobEmpty : Job := ⟨[], none, true, 90, false⟩

/-- Sample environment where every source file has byte size zero. -/
def envZero : Env :=
  ⟨fun _ => some "P", fun _ => some 5, fun _ => some 0, fun _ => true⟩

/-- C1: in a run without cancellation the worker emits, for each source
path in the job's order, exactly one per-file event (`file_converted` or
`error`); and in every run, cancelled or not, it emits exactly one terminal
`finished` signal, as the last event after all per-file processing. -/
theorem run_one_event_per_file_single_finished (env : Env) (job : Job)
    (cancel : Nat → Bool) (h : ∀ i, cancel i = false) :
    (runEvents env job cancel).filter isFileEvent
        = job.files.map (fun p => (processFile env job p).2)
    ∧ (∀ p, isFileEvent (processFile env job p).2 = true)
    ∧ (∀ c : Nat → Bool, ∃ l, runEvents env job c = l ++ [Event.finished]
        ∧ ∀ e ∈ l, e ≠ Event.finished) := by
  refine ⟨?_, fun p => processFile_isFileEvent env job p,
    fun c => ⟨_, rfl, runLoop_no_finished env job c job.files.length
      job.files 0⟩⟩
  unfold runEvents
  rw [List.filter_append]
  simp [runLoop_filter_noCancel env job cancel job.files.length h job.files 0]

theorem run_one_event_per_file_single_finished_witness :
    (runEvents envW jobW (fun _ => false)).filter isFileEvent
      = jobW.files.map (fun p => (processFile envW jobW p).2) :=
  (run_one_event_per_file_single_finished envW jobW (fun _ => false)
    (fun _ => rfl)).1

/-- C2: any exception in the loop body is caught and reported as an error
event whose message carries the failing file's path; every file yields
exactly one event, so an error never aborts the remaining batch and there
is no retry. -/
theorem per_file_errors_isolated (env : Env) (job : Job) :
    (∀ p msg, (processFile env job p).2 = Event.error msg →
      ∃ r, msg = mkErrMsg p r)
    ∧ (∀ p, isFileEvent (processFile env job p).2 = true)
    ∧ (runEvents env job (fun _ => false)).filter isFileEvent
        = job.files.map (fun p => (processFile env job p).2) := by
  refine ⟨fun p msg hp => processFile_error_msg env job p msg hp,
    fun p => processFile_isFileEvent env job p, ?_⟩
  unfold runEvents
  rw [List.filter_append]
  simp [runLoop_filter_noCancel env job _ job.files.length (fun _ => rfl)
    job.files 0]

theorem per_file_errors_isolated_witness :
    ∃ r, mkErrMsg "/d/a.png" "cannot identify image file"
      = mkErrMsg "/d/a.png" r :=
  (per_file_errors_isolated envErr jobW).1 "/d/a.png"
    (mkErrMsg "/d/a.png" "cannot identify image file") rfl

/-- C3: cancellation is observed at the top of each iteration only, so a
flag observed from iteration `k` on yields per-file events for exactly the
first `k` files, in order, and none for the later ones. -/
theorem cancellation_at_file_boundaries (env : Env) (job : Job) (k : Nat)
    (hk : k ≤ job.files.length) :
    (runEvents env job (fun i => decide (k ≤ i))).filter isFileEvent
        = (job.files.take k).map (fun p => (processFile env job p).2)
    ∧ ((runEvents env job (fun i => decide (k ≤ i))).filter
        isFileEvent).length = k := by
  have h1 : (runEvents env job (fun i => decide (k ≤ i))).filter isFileEvent
      = (job.files.take k).map (fun p => (processFile env job p).2) := by
    unfold runEvents
    rw [List.filter_append]
    have h2 := runLoop_filter_cancelAt env job job.files.length k
      job.files 0 (Nat.zero_le k)
    simpa using h2
  refine ⟨h1, ?_⟩
  rw [h1, List.length_map, List.length_take]
  omega

theorem cancellation_at_file_boundaries_witness :
    (runEvents envW jobW (fun i => decide (1 ≤ i))).filter isFileEvent
        = (jobW.files.take 1).map (fun p => (processFile envW jobW p).2)
    ∧ ((runEvents envW jobW (fun i => decide (1 ≤ i))).filter
        isFileEvent).length = 1 :=
  cancellation_at_file_boundaries envW jobW 1 (by decide)

/-- C4 (amended): after the `j`-th processed file the worker emits
`(j + 1) * 100 / N` — the floor of `(j+1)/N * 100`, as computed by Python's
`int()` truncation, not the nearest-integer rounding; the emitted sequence
is monotonically non-decreasing and, for a fully processed batch of `N ≥ 1`
files, the final emitted progress value is 100. -/
theorem progress_floor_monotone_final_hundred (env : Env) (job : Job)
    (hN : job.files.length ≠ 0) :
    progressValues (runEvents env job (fun _ => false))
        = (List.range job.files.length).map
            (fun j => (j + 1) * 100 / job.files.length)
    ∧ (progressValues (runEvents env job (fun _ => false))).Pairwise (· ≤ ·)
    ∧ (progressValues (runEvents env job (fun _ => false))).getLast?
        = some 100 := by
  have h0 := runLoop_progress_noCancel env job (fun _ => false)
    job.files.length (fun _ => rfl) job.files 0
  have hfun : (fun j => (0 + j + 1) * 100 / job.files.length)
      = (fun j => (j + 1) * 100 / job.files.length) := by
    funext j
    rw [Nat.zero_add]
  have hmain : progressValues (runEvents env job (fun _ => false))
      = (List.range job.files.length).map
          (fun j => (j + 1) * 100 / job.files.length) := by
    unfold runEvents
    rw [progressValues_eq_filterMap, List.filterMap_append,
      ← progressValues_eq_filterMap, h0, hfun]
    simp [progressOf]
  have hpw : ((List.range job.files.length).map
      (fun j => (j + 1) * 100 / job.files.length)).Pairwise (· ≤ ·) := by
    refine List.Pairwise.map _ ?_ (List.pairwise_lt_range job.files.length)
    intro a b hab
    exact Nat.div_le_div_right (Nat.mul_le_mul_right 100 (by omega))
  refine ⟨hmain, hmain ▸ hpw, ?_⟩
  rw [hmain]
  obtain ⟨m, hm⟩ : ∃ m, job.files.length = m + 1 :=
    ⟨job.files.length - 1, by omega⟩
  rw [hm, List.range_succ, List.map_append]
  have h100 : (m + 1) * 100 / (m + 1) = 100 :=
    Nat.mul_div_cancel_left 100 (Nat.succ_pos m)
  simp [h100]

theorem progress_floor_monotone_final_hundred_witness :
    (progressValues (runEvents envW jobW (fun _ => false))).getLast?
      = some 100 :=
  (progress_floor_monotone_final_hundred envW jobW (by decide)).2.2

/-- C4 counterexample: with three files the second emitted progress value
is 66, while the claimed `round((2/3) * 100)` is 67. -/
theorem progress_round_counterexample :
    progressValues (runEvents envW jobW (fun _ => false)) = [33, 66, 100]
    ∧ round ((2 : ℚ) / 3 * 100) = 67 ∧ (66 : ℤ) ≠ 67 := by
  refine ⟨by decide, ?_, by decide⟩
  norm_num [round_eq]

/-- C5: with keep-original off, the loop body removes the source only in
the branch where the save of the encoded output already succeeded — the
`remove` action is strictly after the `save` of the output path in program
order — and (when the save oracle only reports non-empty outputs) the
output written before removal is non-empty; when saving fails, the source
is never removed. -/
theorem source_removed_only_after_save (env : Env) (job : Job) (p : String)
    (_hk : job.keep_original = false)
    (hpos : ∀ q n, env.saveSize q = some n → 0 < n) :
    (Action.remove p ∈ (processFile env job p).1 →
      ∃ n l₁ l₂, (processFile env job p).1
          = l₁ ++ Action.save (outputPath job p) n :: l₂
        ∧ Action.remove p ∈ l₂
        ∧ env.saveSize (outputPath job p) = some n ∧ 0 < n)
    ∧ (env.saveSize (outputPath job p) = none →
        Action.remove p ∉ (processFile env job p).1) := by
  constructor
  · intro h
    rcases processFile_remove_mem env job p h with
      ⟨m, nsz, osz, hd, hs, ho, h0, hkf, hr, hacts⟩
    refine ⟨nsz, [Action.openImg p, Action.convert (normalizeMode m),
        Action.makedirs (outDirOf job p)],
      [Action.getsize p, Action.getsize (outputPath job p),
       Action.remove p], ?_, by simp, hs, hpos _ _ hs⟩
    rw [hacts]
    rfl
  · exact processFile_save_none_no_remove env job p

theorem source_removed_only_after_save_witness :
    ∃ n l₁ l₂, (processFile envW jobDel "/d/a.png").1
        = l₁ ++ Action.save (outputPath jobDel "/d/a.png") n :: l₂
      ∧ Action.remove "/d/a.png" ∈ l₂
      ∧ envW.saveSize (outputPath jobDel "/d/a.png") = some n ∧ 0 < n :=
  (source_removed_only_after_save envW jobDel "/d/a.png" rfl
    (fun _ n hn => (Option.some.inj hn) ▸ (by decide : (0 : Nat) < 50))).1
    (by decide)

/-- C6: with keep-original on, and the computed output path different from
the source path (which holds for every supported input extension), the loop
body never removes the source and every write targets the output path, so
the source file is untouched; a successful conversion writes the `.webp`
output. -/
theorem keep_original_leaves_source_untouched (env : Env) (job : Job)
    (p : String) (hk : job.keep_original = true)
    (hne : outputPath job p ≠ p) :
    Action.remove p ∉ (processFile env job p).1
    ∧ (∀ q n, Action.save q n ∈ (processFile env job p).1 →
        q = outputPath job p ∧ q ≠ p)
    ∧ (∀ m nsz, env.decode p = some m →
        env.saveSize (outputPath job p) = some nsz →
        Action.save (outputPath job p) nsz ∈ (processFile env job p).1
        ∧ ∃ t, outputPath job p = t ++ ".webp") := by
  refine ⟨processFile_keep_no_remove env job p hk, ?_, ?_⟩
  · intro q n hq
    rcases processFile_save_mem env job p q n hq with ⟨hq1, _⟩
    exact ⟨hq1, hq1 ▸ hne⟩
  · intro m nsz hd hs
    rcases processFile_success_save env job p m nsz hd hs with ⟨l₂, hacts⟩
    refine ⟨?_, outputPath_ends_webp job p⟩
    rw [hacts]
    simp

theorem keep_original_leaves_source_untouched_witness :
    Action.remove "/d/a.png" ∉ (processFile envW jobW "/d/a.png").1
    ∧ (Action.save (outputPath jobW "/d/a.png") 50
        ∈ (processFile envW jobW "/d/a.png").1
      ∧ ∃ t, outputPath jobW "/d/a.png" = t ++ ".webp") :=
  ⟨(keep_original_leaves_source_untouched envW jobW "/d/a.png" rfl
      (by decide)).1,
   (keep_original_leaves_source_untouched envW jobW "/d/a.png" rfl
      (by decide)).2.2 "RGB" 50 rfl rfl⟩

/-- C7: for every mode the decoder can produce for the supported formats,
the worker converts to RGBA (4 channels) exactly when the mode has an alpha
channel or is palette-indexed, and to RGB (3 channels) otherwise; the
conversion happens before the encoding save. -/
theorem color_mode_normalized_before_encoding (m : String)
    (hm : m ∈ decodeModes) :
    normalizeMode m
        = (if modeHasAlpha m || modeIsPalette m then "RGBA" else "RGB")
    ∧ channelCount (normalizeMode m)
        = (if modeHasAlpha m || modeIsPalette m then 4 else 3)
    ∧ (∀ (env : Env) (job : Job) (p : String) (nsz : Nat),
        env.decode p = some m →
        env.saveSize (outputPath job p) = some nsz →
        ∃ l₂, (processFile env job p).1
            = [Action.openImg p, Action.convert (normalizeMode m),
               Action.makedirs (outDirOf job p)]
              ++ Action.save (outputPath job p) nsz :: l₂) := by
  refine ⟨?_, ?_, fun env job p nsz hd hs =>
    processFile_success_save env job p m nsz hd hs⟩ <;>
    fin_cases hm <;> rfl

theorem color_mode_normalized_before_encoding_witness :
    normalizeMode "P"
        = (if modeHasAlpha "P" || modeIsPalette "P" then "RGBA" else "RGB")
    ∧ channelCount (normalizeMode "P")
        = (if modeHasAlpha "P" || modeIsPalette "P" then 4 else 3)
    ∧ normalizeMode "LAB"
        = (if modeHasAlpha "LAB" || modeIsPalette "LAB" then "RGBA"
           else "RGB")
    ∧ channelCount (normalizeMode "LAB")
        = (if modeHasAlpha "LAB" || modeIsPalette "LAB" then 4 else 3) :=
  ⟨(color_mode_normalized_before_encoding "P" (by decide)).1,
   (color_mode_normalized_before_encoding "P" (by decide)).2.1,
   (color_mode_normalized_before_encoding "LAB" (by decide)).1,
   (color_mode_normalized_before_encoding "LAB" (by decide)).2.1⟩

/-- C8: the output path is the source base name with a `.webp` extension in
the job's output folder when configured, else in the source's own
directory; two sources with equal base names and equal output directories
yield the same output path (silent overwrite, no deduplication); directory
creation is idempotent. -/
theorem output_path_derivation_and_collisions (job : Job) (p q : String) :
    (∀ d, job.output_folder = some d →
      outputPath job p = pyJoin d (splitextRoot (pyBasename p) ++ ".webp"))
    ∧ (job.output_folder = none →
      outputPath job p
        = pyJoin (pyDirname p) (splitextRoot (pyBasename p) ++ ".webp"))
    ∧ (splitextRoot (pyBasename p) = splitextRoot (pyBasename q) →
        outDirOf job p = outDirOf job q →
        outputPath job p = outputPath job q)
    ∧ (∀ d fs, makedirsFs d (makedirsFs d fs) = makedirsFs d fs) := by
  refine ⟨?_, ?_, ?_, fun d fs => makedirsFs_idem d fs⟩
  · intro d hd
    simp [outputPath, outDirOf, hd]
  · intro hd
    simp [outputPath, outDirOf, hd]
  · intro h1 h2
    unfold outputPath
    rw [h1, h2]

theorem output_path_derivation_and_collisions_witness :
    outputPath jobDel "/d/a.png" = outputPath jobDel "/e/a.jpg"
    ∧ makedirsFs "/out" (makedirsFs "/out" []) = makedirsFs "/out" [] :=
  ⟨(output_path_derivation_and_collisions jobDel "/d/a.png"
      "/e/a.jpg").2.2.1 (by decide) (by decide),
   (output_path_derivation_and_collisions jobDel "/d/a.png"
      "/e/a.jpg").2.2.2 "/out" []⟩

/-- C9: the reduction percentage `(1 - new/original) * 100` satisfies
`new = original * (1 - reduction/100)` exactly in rational arithmetic
whenever the original size is non-zero; a zero original size raises
`ZeroDivisionError`, which becomes a per-file error event, and the batch
still yields one event per file. -/
theorem reduction_formula_and_zero_division :
    (∀ osz nsz : Nat, osz ≠ 0 →
      (nsz : ℚ) = (osz : ℚ) * (1 - reduction osz nsz / 100))
    ∧ (∀ (env : Env) (job : Job) (p m : String) (nsz : Nat),
        env.decode p = some m →
        env.saveSize (outputPath job p) = some nsz →
        env.origSize p = some 0 →
        (processFile env job p).2
          = Event.error (mkErrMsg p "division by zero"))
    ∧ (∀ (env : Env) (job : Job),
        (runEvents env job (fun _ => false)).filter isFileEvent
          = job.files.map (fun p => (processFile env job p).2)) := by
  refine ⟨?_, ?_, ?_⟩
  · intro osz nsz h
    have hz : (osz : ℚ) ≠ 0 := Nat.cast_ne_zero.mpr h
    unfold reduction
    field_simp
    ring
  · intro env job p m nsz hd hs ho
    simp [processFile, hd, hs, ho]
  · intro env job
    unfold runEvents
    rw [List.filter_append]
    simp [runLoop_filter_noCancel env job _ job.files.length (fun _ => rfl)
      job.files 0]

theorem reduction_formula_and_zero_division_witness :
    ((50 : ℕ) : ℚ) = ((100 : ℕ) : ℚ) * (1 - reduction 100 50 / 100)
    ∧ (processFile envZero jobW "/d/a.png").2
        = Event.error (mkErrMsg "/d/a.png" "division by zero") :=
  ⟨reduction_formula_and_zero_division.1 100 50 (by decide),
   reduction_formula_and_zero_division.2.1 envZero jobW "/d/a.png" "P" 5
     rfl rfl rfl⟩

/-- C10: with an empty file list the loop body never runs, so the worker
emits no progress, result or error event, exactly one `finished` signal,
and the division by `total_files = 0` in the progress computation is never
reached. -/
theorem empty_queue_emits_single_finished (env : Env) (job : Job)
    (cancel : Nat → Bool) (h : job.files = []) :
    runEvents env job cancel = [Event.finished]
    ∧ progressValues (runEvents env job cancel) = []
    ∧ (runEvents env job cancel).filter isFileEvent = [] := by
  have h1 : runEvents env job cancel = [Event.finished] := by
    unfold runEvents
    rw [h]
    rfl
  refine ⟨h1, ?_, ?_⟩ <;> rw [h1] <;> rfl

theorem empty_queue_emits_single_finished_witness :
    runEvents envW jobEmpty (fun _ => false) = [Event.finished] :=
  (empty_queue_emits_single_finished envW jobEmpty (fun _ => false) rfl).1

end ImageToWebp
